import Mathlib

/-!
Verification development for the LocalPulse AI-Hackathon real-time pipeline.

Shallow embedding of the tracker (`src/services/tracker.py`,
`src/services/track.py`), the activity classifier (`src/services/activity.py`),
the PPE clothing detector (`src/services/pipeline.py`), the activity-change
logger (`src/services/pipeline/track_processing.py`) and the camera
state-sync store (`src/utils/state_sync.py`).

Machine floats of the Python source are embedded as rationals (`ℚ`); the
only genuinely irrational quantity, `math.hypot`, is embedded through
`Real.sqrt`.  Python `int(x)` truncation toward zero is embedded by `pyInt`.
Stateful methods become explicit state-passing functions; the unbounded
`while` loop of the greedy matcher becomes a fuel-indexed iteration whose
result is `none` exactly when the Python loop would not have finished
within the given fuel.
-/

namespace LocalPulse

/-- Python `int(q)` on a real value: truncation toward zero. -/
def pyInt (q : ℚ) : Int :=
  if q < 0 then -⌊-q⌋ else ⌊q⌋

/-- Bounding box `(x1, y1, x2, y2)`, source alias `BBox`. -/
abbrev BBox := ℚ × ℚ × ℚ × ℚ

/-- Detection tuple `(x1, y1, x2, y2, cls, score)`, source alias `Detection`. -/
abbrev Detection := ℚ × ℚ × ℚ × ℚ × Int × ℚ

/-- Embedding of `compute_iou` from `src/services/tracker.py`. -/
def compute_iou (box_a box_b : BBox) : ℚ :=
  let xa1 := box_a.1; let ya1 := box_a.2.1; let xa2 := box_a.2.2.1; let ya2 := box_a.2.2.2
  let xb1 := box_b.1; let yb1 := box_b.2.1; let xb2 := box_b.2.2.1; let yb2 := box_b.2.2.2
  let xi1 := max xa1 xb1; let yi1 := max ya1 yb1
  let xi2 := min xa2 xb2; let yi2 := min ya2 yb2
  let inter := max 0 (xi2 - xi1) * max 0 (yi2 - yi1)
  let area_a := max 0 (xa2 - xa1) * max 0 (ya2 - ya1)
  let area_b := max 0 (xb2 - xb1) * max 0 (yb2 - yb1)
  let union := area_a + area_b - inter
  if union > 0 then inter / union else 0

/-- Embedding of the `Track` dataclass from `src/services/track.py`.
`keypoints` is omitted (never touched by the embedded code paths);
`last_seen` keeps the wall-clock stamp passed in by the caller. -/
structure Track where
  id : Nat
  bbox : BBox
  cls : Int
  score : ℚ
  last_seen : ℚ := 0
  hits : Nat := 1
  lost_frames : Nat := 0
  history : List (Int × Int) := []
  velocity : ℚ × ℚ := (0, 0)
  clothing : Option String := none
  activity : Option String := none
  activity_conf : ℚ := 0
  cls_name : Option String := none
  previous_activity : Option String := none
  deriving Repr, DecidableEq

namespace Track

/-- Embedding of `Track.predict_bbox`. -/
def predict_bbox (t : Track) : BBox :=
  (t.bbox.1 + t.velocity.1, t.bbox.2.1 + t.velocity.2,
   t.bbox.2.2.1 + t.velocity.1, t.bbox.2.2.2 + t.velocity.2)

/-- Embedding of Python `history[-n:]` (for `n > 0`): the last `n` entries. -/
def lastSlice (n : Nat) (l : List α) : List α :=
  if n = 0 then l else l.drop (l.length - n)

/-- The weighted sums accumulated by the `for` loop of `Track.update_velocity`:
`(total_vx, total_vy, total_w)` over the consecutive pairs of `pts`,
with 1-based weight `i` on pair `(pts[i-1], pts[i])`. -/
def velSums (pts : List (Int × Int)) : ℚ × ℚ × ℚ :=
  (List.range (pts.length - 1)).foldl
    (fun acc k =>
      let i := k + 1
      let p := pts.getD (i - 1) (0, 0)
      let q := pts.getD i (0, 0)
      (acc.1 + ((q.1 - p.1 : Int) : ℚ) * i,
       acc.2.1 + ((q.2 - p.2 : Int) : ℚ) * i,
       acc.2.2 + (i : ℚ)))
    (0, 0, 0)

/-- Embedding of `Track.update_velocity` as a pure function from the
position history to the new velocity. -/
def update_velocity (history : List (Int × Int)) : ℚ × ℚ :=
  if history.length < 2 then (0, 0)
  else
    let n := min 5 history.length
    let pts := lastSlice n history
    let s := velSums pts
    if s.2.2 > 0 then (s.1 / s.2.2, s.2.1 / s.2.2) else (0, 0)

/-- Embedding of `Track.add_position` (history capped at 50, oldest dropped). -/
def add_position (history : List (Int × Int)) (c : Int × Int) : List (Int × Int) :=
  let h := history ++ [c]
  if h.length > 50 then h.drop 1 else h

/-- Embedding of the `Track.center` property. -/
def center (t : Track) : Int × Int :=
  (pyInt ((t.bbox.1 + t.bbox.2.2.1) / 2), pyInt ((t.bbox.2.1 + t.bbox.2.2.2) / 2))

end Track

/-- Row-major index returned by `numpy.argmax` on a flattened matrix: the
index of the first occurrence of the maximum (ties broken toward the
smaller index). -/
def argmaxIdx (l : List ℚ) : Nat :=
  (List.range l.length).foldl
    (fun best i => if l.getD i 0 > l.getD best 0 then i else best) 0

/-- Loop state of `Matcher._greedy_match`: the (row-major flattened) IoU
matrix being zeroed in place, the accumulated `mapping` in insertion order,
and the `used_dets` / `used_tracks` sets. -/
structure GState where
  flat : List ℚ
  mapping : List (Nat × Nat)
  used_dets : List Nat
  used_tracks : List Nat
  deriving Repr, DecidableEq

/-- One iteration of the `while` loop of `Matcher._greedy_match`.
`Sum.inl` is the loop finishing (empty matrix, or the selected maximum is
below the threshold); `Sum.inr` is the state after one pass.  The cell at
the argmax is zeroed whether or not the pair is assigned; `unravel_index`
on a `(nrows, ncols)` shape sends flat index `k` to `(k / ncols, k % ncols)`. -/
def greedyStep (thr : ℚ) (ids : List Nat) (ncols : Nat) (s : GState) :
    List (Nat × Nat) ⊕ GState :=
  if s.flat = [] then Sum.inl s.mapping
  else
    let k := argmaxIdx s.flat
    let i := k / ncols
    let j := k % ncols
    let v := s.flat.getD k 0
    if v < thr then Sum.inl s.mapping
    else
      let s1 :=
        if i ∈ s.used_dets ∨ j ∈ s.used_tracks then s
        else { s with
               mapping := s.mapping ++ [(i, ids.getD j 0)],
               used_dets := i :: s.used_dets,
               used_tracks := j :: s.used_tracks }
      Sum.inr { s1 with flat := s1.flat.set k 0 }

/-- Fuel-indexed iteration of `greedyStep`; `none` means the fuel ran out
before the Python loop would have exited. -/
def greedyRun (thr : ℚ) (ids : List Nat) (ncols : Nat) :
    Nat → GState → Option (List (Nat × Nat))
  | 0, _ => none
  | fuel + 1, s =>
    match greedyStep thr ids ncols s with
    | Sum.inl r => some r
    | Sum.inr s1 => greedyRun thr ids ncols fuel s1

/-- Embedding of `Matcher._build_iou_matrix`. -/
def buildIouMatrix (detections trackBoxes : List BBox) : List (List ℚ) :=
  detections.map (fun d => trackBoxes.map (fun t => compute_iou d t))

/-- Embedding of `Matcher._get_track_box`. -/
def getTrackBox (usePred : Bool) (t : Track) : BBox :=
  if t.lost_frames > 0 ∧ usePred then t.predict_bbox else t.bbox

/-- Embedding of `Matcher._greedy_match` applied to a freshly built matrix,
with fuel `|flat| + 1` (enough whenever the Python loop terminates, see the
termination theorem). -/
def greedyMatch (thr : ℚ) (ids : List Nat) (matrix : List (List ℚ)) :
    Option (List (Nat × Nat)) :=
  let flat := matrix.flatten
  let ncols := (matrix.headD []).length
  greedyRun thr ids ncols (flat.length + 1) ⟨flat, [], [], []⟩

/-- Embedding of `Matcher.match`: tracks are the insertion-ordered
association list of the tracker dictionary. -/
def Matcher.match (thr : ℚ) (usePred : Bool) (detections : List BBox)
    (tracks : List (Nat × Track)) : Option (List (Nat × Nat)) :=
  if tracks = [] ∨ detections = [] then some []
  else
    let track_ids := tracks.map Prod.fst
    let track_boxes := tracks.map (fun p => getTrackBox usePred p.2)
    greedyMatch thr track_ids (buildIouMatrix detections track_boxes)

/-- State of the `Tracker`: the insertion-ordered track dictionary and the
`TrackManager._next_id` counter. -/
structure TrackerState where
  tracks : List (Nat × Track)
  next_id : Nat
  deriving Repr, DecidableEq

/-- Initial tracker state (`Tracker.__init__`). -/
def initialTracker : TrackerState := ⟨[], 1⟩

/-- Python dictionary assignment `d[k] = v` on an insertion-ordered
association list: replace in place if present, else append. -/
def dictInsert (l : List (Nat × α)) (k : Nat) (v : α) : List (Nat × α) :=
  if l.any (fun p => p.1 = k) then
    l.map (fun p => if p.1 = k then (k, v) else p)
  else l ++ [(k, v)]

/-- Embedding of `TrackManager.create_track`. -/
def create_track (next_id : Nat) (box : BBox) (cls : Int) (score : ℚ)
    (now : ℚ) : Track :=
  let cx := pyInt ((box.1 + box.2.2.1) / 2)
  let cy := pyInt ((box.2.1 + box.2.2.2) / 2)
  { id := next_id, bbox := box, cls := cls, score := score, last_seen := now,
    history := [(cx, cy)] }

/-- Embedding of `TrackManager.update_track` (field mutations in source
order; the appended center is that of the freshly assigned `bbox`). -/
def update_track (t : Track) (box : BBox) (cls : Int) (score : ℚ)
    (now : ℚ) : Track :=
  let t1 := { t with bbox := box, cls := cls, score := score,
                     last_seen := now, hits := t.hits + 1, lost_frames := 0 }
  let h := Track.add_position t1.history t1.center
  { t1 with history := h, velocity := Track.update_velocity h }

/-- Embedding of `TrackManager._apply_prediction` (velocity decay, bbox
shift by the decayed velocity, predicted center appended to history). -/
def apply_prediction (t : Track) : Track :=
  let decay := max (1 / 2 : ℚ) (1 - (t.lost_frames : ℚ) * (2 / 100))
  let t1 := { t with velocity := (t.velocity.1 * decay, t.velocity.2 * decay) }
  let t2 := { t1 with bbox := t1.predict_bbox }
  { t2 with history := Track.add_position t2.history t2.center }

/-- Aging of one unmatched track in `TrackManager.update_lost_tracks`:
increment `lost_frames`, then apply prediction when enabled and within the
budget (`_should_predict`). -/
def age_track (maxLost : Nat) (usePred : Bool) (t : Track) : Track :=
  let t1 := { t with lost_frames := t.lost_frames + 1 }
  if usePred ∧ t1.lost_frames ≤ maxLost then apply_prediction t1 else t1

/-- Embedding of `TrackManager.update_lost_tracks`: every track not updated
this frame ages by one lost frame, is optionally moved by prediction, and
is deleted once `lost_frames > max_lost`. -/
def update_lost_tracks (maxLost : Nat) (usePred : Bool) (updated : List Nat)
    (tracks : List (Nat × Track)) : List (Nat × Track) :=
  tracks.filterMap (fun p =>
    if p.1 ∈ updated then some p
    else
      let t2 := age_track maxLost usePred p.2
      if t2.lost_frames > maxLost then none else some (p.1, t2))

/-- Embedding of `Tracker._update_matched_tracks` (updates the matched
entries of the dictionary; returns the state with the set of updated ids). -/
def update_matched_tracks (now : ℚ) (mapping : List (Nat × Nat))
    (boxes : List BBox) (classes : List Int) (scores : List ℚ)
    (tracks : List (Nat × Track)) : List (Nat × Track) :=
  mapping.foldl
    (fun acc m =>
      acc.map (fun p =>
        if p.1 = m.2 then
          (p.1, update_track p.2 (boxes.getD m.1 (0, 0, 0, 0))
            (classes.getD m.1 0) (scores.getD m.1 0) now)
        else p))
    tracks

/-- Embedding of `Tracker._create_new_tracks`: spawn a track for every
detection index absent from the mapping, ids minted sequentially. -/
def create_new_tracks (now : ℚ) (mapping : List (Nat × Nat))
    (boxes : List BBox) (classes : List Int) (scores : List ℚ)
    (s : TrackerState) : TrackerState :=
  (List.range boxes.length).foldl
    (fun st i =>
      if mapping.any (fun m => m.1 = i) then st
      else
        let tr := create_track st.next_id (boxes.getD i (0, 0, 0, 0))
          (classes.getD i 0) (scores.getD i 0) now
        ⟨dictInsert st.tracks tr.id tr, st.next_id + 1⟩)
    s

/-- Embedding of `Tracker.update`; `none` when the greedy matching loop
does not terminate within its fuel (possible only for `thr ≤ 0`). -/
def Tracker.update (thr : ℚ) (maxLost : Nat) (usePred : Bool) (now : ℚ)
    (s : TrackerState) (detections : List Detection) : Option TrackerState :=
  let boxes := detections.map (fun d => (d.1, d.2.1, d.2.2.1, d.2.2.2.1))
  let classes := detections.map (fun d => d.2.2.2.2.1)
  let scores := detections.map (fun d => d.2.2.2.2.2)
  match Matcher.match thr usePred boxes s.tracks with
  | none => none
  | some mapping =>
    let tracks1 := update_matched_tracks now mapping boxes classes scores s.tracks
    let updated := mapping.map Prod.snd
    let s1 := create_new_tracks now mapping boxes classes scores ⟨tracks1, s.next_id⟩
    some ⟨update_lost_tracks maxLost usePred updated s1.tracks, s1.next_id⟩

/-- A whole run: fold `Tracker.update` over a list of `(now, detections)`
frames, propagating the (non-)termination of the matcher. -/
def Tracker.updates (thr : ℚ) (maxLost : Nat) (usePred : Bool)
    (s : TrackerState) : List (ℚ × List Detection) → Option TrackerState
  | [] => some s
  | f :: fs =>
    match Tracker.update thr maxLost usePred f.1 s f.2 with
    | none => none
    | some s1 => Tracker.updates thr maxLost usePred s1 fs

/-- Embedding of `math.hypot` on integer coordinate differences. -/
noncomputable def hypot (dx dy : Int) : ℝ :=
  Real.sqrt ((dx : ℝ) ^ 2 + (dy : ℝ) ^ 2)

/-- Embedding of the `Activity` result dataclass of `src/services/activity.py`. -/
structure Activity where
  label : String
  confidence : ℚ
  deriving Repr, DecidableEq

/-- Embedding of `PersonClassifier.classify`. -/
noncomputable def PersonClassifier.classify (speed_threshold speed : ℝ) : Activity :=
  if speed < speed_threshold then ⟨"standing", 9 / 10⟩ else ⟨"moving", 9 / 10⟩

/-- Embedding of `VehicleClassifier.classify`. -/
noncomputable def VehicleClassifier.classify (displacement_threshold : ℝ)
    (min_history : Nat) (t : Track) : Activity :=
  if t.history.length < min_history then ⟨"stopped", 85 / 100⟩
  else
    let s := t.history.headD (0, 0)
    let e := t.history.getLastD (0, 0)
    if hypot (e.1 - s.1) (e.2 - s.2) < displacement_threshold then ⟨"stopped", 95 / 100⟩
    else ⟨"moving", 9 / 10⟩

/-- The `distances` list built by the `for` loop of
`ActivityClassifier._compute_speed`: consecutive-center distances of `pts`
in index order. -/
noncomputable def speedDistances (pts : List (Int × Int)) : List ℝ :=
  (List.range (pts.length - 1)).map (fun k =>
    let p := pts.getD k (0, 0)
    let q := pts.getD (k + 1) (0, 0)
    hypot (q.1 - p.1) (q.2 - p.2))

/-- Embedding of `ActivityClassifier._compute_speed`: median (upper middle
of the ascending sort) of the consecutive distances over the last `window`
history points, scaled by `fps`; `0` for histories shorter than 3. -/
noncomputable def compute_speed (window : Nat) (fps : ℝ)
    (history : List (Int × Int)) : ℝ :=
  if history.length < 3 then 0
  else
    let pts := Track.lastSlice window history
    let distances := speedDistances pts
    if distances.isEmpty then 0
    else
      let sorted := distances.insertionSort (· ≤ ·)
      sorted.getD (distances.length / 2) 0 * fps

/-- Embedding of `ActivityClassifier._classify`: route by `cls_name`
(`PERSON_CLASSES = {person}`, `VEHICLE_CLASSES = {train, truck, bus, car}`)
and store the resulting label and confidence on the track. -/
noncomputable def classifyTrack (fps : ℝ) (window : Nat)
    (person_speed_threshold vehicle_displacement_threshold : ℝ)
    (vehicle_min_history : Nat) (t : Track) : Track :=
  if t.cls_name = some "person" then
    let r := PersonClassifier.classify person_speed_threshold
      (compute_speed window fps t.history)
    { t with activity := some r.label, activity_conf := r.confidence }
  else if t.cls_name = some "train" ∨ t.cls_name = some "truck" ∨
      t.cls_name = some "bus" ∨ t.cls_name = some "car" then
    let r := VehicleClassifier.classify vehicle_displacement_threshold
      vehicle_min_history t
    { t with activity := some r.label, activity_conf := r.confidence }
  else
    { t with activity := none, activity_conf := 0 }

/-- Python list slicing `l[a:b]` with full negative-index semantics. -/
def pySlice (a b : Int) (l : List α) : List α :=
  let n : Int := l.length
  let s := if a < 0 then max 0 (n + a) else min a n
  let e := if b < 0 then max 0 (n + b) else min b n
  (l.drop s.toNat).take (e - s).toNat

/-- Embedding of `Worker._has_high_vis` from `src/services/pipeline.py`.
The image is a grid of pixels of abstract type `α`; `cvt` is the
BGR-to-HSV conversion `cv2.cvtColor` applied pixelwise, yielding `(H, S, V)`.
The mask counts pixels inside the HSV gate; the coverage test divides by
`mask.size + 1e-6`. -/
def hvGate (hmin hmax smin vmin : Nat) (c : Nat × Nat × Nat) : Bool :=
  decide (hmin ≤ c.1 ∧ c.1 ≤ hmax ∧ smin ≤ c.2.1 ∧ vmin ≤ c.2.2)

def hasHighVis (cvt : α → Nat × Nat × Nat) (hmin hmax smin vmin : Nat)
    (coverage : ℚ) (img : List (List α)) : Bool :=
  let pixels := img.flatten
  if pixels.isEmpty then false
  else
    let cnt := pixels.countP (fun p => hvGate hmin hmax smin vmin (cvt p))
    decide ((cnt : ℚ) / ((pixels.length : ℚ) + 1 / 1000000) > coverage)

/-- Torso sub-image extracted by `Worker._detect_clothing`:
`frame[y1 : y1 + int((y2 - y1) * 0.45), x1:x2]`. -/
def torsoRegion (x1 y1 y2 x2 : Int) (frame : List (List α)) : List (List α) :=
  (pySlice y1 (y1 + pyInt (((y2 - y1 : Int) : ℚ) * (45 / 100))) frame).map
    (pySlice x1 x2)

/-- Clothing label assigned by `Worker._detect_clothing` to one person
track: `unknown` for a degenerate integer box, otherwise the high-vis
coverage test over the torso region. -/
def detectClothingLabel (cvt : α → Nat × Nat × Nat) (hmin hmax smin vmin : Nat)
    (coverage : ℚ) (frame : List (List α)) (bbox : BBox) : String :=
  let x1 := pyInt bbox.1
  let y1 := pyInt bbox.2.1
  let x2 := pyInt bbox.2.2.1
  let y2 := pyInt bbox.2.2.2
  if x2 ≤ x1 ∨ y2 ≤ y1 then "unknown"
  else if hasHighVis cvt hmin hmax smin vmin coverage
      (torsoRegion x1 y1 y2 x2 frame) then "high-vis"
  else "none"

/-- Per-track body of the `Worker._detect_clothing` loop (PPE detection
enabled): non-person tracks get `clothing = None`, person tracks get the
computed label. -/
def detect_clothing_track (cvt : α → Nat × Nat × Nat)
    (hmin hmax smin vmin : Nat) (coverage : ℚ) (frame : List (List α))
    (t : Track) : Track :=
  if t.cls_name ≠ some "person" then { t with clothing := none }
  else { t with clothing := some (detectClothingLabel cvt hmin hmax smin vmin
    coverage frame t.bbox) }

/-- A record appended to the activity log by
`TrackProcessor._log_track_activity`; the `force` flag remembers which
branch wrote it (`false` = change-triggered, `true` = periodic flush). -/
structure LogRecord where
  track_id : Nat
  class_name : String
  activity : String
  confidence : ℚ
  force : Bool
  deriving Repr, DecidableEq

/-- Python truthiness of an optional string (`None` and `""` are falsy). -/
def truthy : Option String → Bool
  | none => false
  | some s => !(s = "")

/-- Embedding of `TrackProcessor._is_valid_track_class`
(`VALID_CLASSES = {person, train}`). -/
def is_valid_track_class (t : Track) : Bool :=
  t.cls_name = some "person" ∨ t.cls_name = some "train"

/-- Embedding of `TrackProcessor._should_log_track_change`. -/
def should_log_track_change (t : Track) : Bool :=
  is_valid_track_class t && truthy t.activity &&
    (t.previous_activity = none || !(t.activity = t.previous_activity))

/-- Embedding of `TrackProcessor._should_periodic_log_track`. -/
def should_periodic_log_track (t : Track) : Bool :=
  is_valid_track_class t && truthy t.activity

/-- Embedding of `TrackProcessor._log_track_activity`: emit a record (when
class name and activity are truthy) and update `previous_activity` only
when `force` is false. -/
def log_track_activity (t : Track) (force : Bool) : Option LogRecord × Track :=
  if !truthy t.cls_name || !truthy t.activity then (none, t)
  else
    (some ⟨t.id, t.cls_name.getD "", t.activity.getD "", t.activity_conf, force⟩,
     if force then t else { t with previous_activity := t.activity })

/-- Per-track body of the `TrackProcessor._log_activity_changes` loop: the
change-triggered write takes priority (`continue`), else a periodic flush
when due. -/
def processTrackLog (shouldPeriodic : Bool) (t : Track) :
    Option LogRecord × Track :=
  if should_log_track_change t then log_track_activity t false
  else if shouldPeriodic && should_periodic_log_track t then
    log_track_activity t true
  else (none, t)

/-- Embedding of `PERIODIC_LOG_INTERVAL` (30 s). -/
def PERIODIC_LOG_INTERVAL : ℚ := 30

/-- Embedding of `TrackProcessor._log_activity_changes`: returns the
records written this frame, the tracks (with `previous_activity` updates),
and the new `_last_periodic_log_time`. -/
def log_activity_changes (now lastPeriodic : ℚ) (tracks : List Track) :
    List LogRecord × List Track × ℚ :=
  let shouldPeriodic := decide (now - lastPeriodic ≥ PERIODIC_LOG_INTERVAL)
  let results := tracks.map (processTrackLog shouldPeriodic)
  (results.filterMap Prod.fst, results.map Prod.snd,
   if shouldPeriodic then now else lastPeriodic)

/-- Trace of a single track through successive frames: at each frame the
classifier has produced the given `activity`, and
`TrackProcessor._log_activity_changes` runs at the given wall-clock time.
Returns all records written for the track, in order. -/
def logTrace (tid : Nat) (cls_name : Option String) (conf : ℚ) :
    Option String → ℚ → List (ℚ × Option String) → List LogRecord
  | _, _, [] => []
  | prev, lp, (now, act) :: rest =>
    let t : Track := { id := tid, bbox := (0, 0, 0, 0), cls := 0, score := 0,
                       cls_name := cls_name, activity := act,
                       activity_conf := conf, previous_activity := prev }
    let r := log_activity_changes now lp [t]
    r.1 ++ logTrace tid cls_name conf
      ((r.2.1.headD t).previous_activity) r.2.2 rest

/-- Light per-track view stored in the sync file by `save_camera_tracks`. -/
structure TrackView where
  track_id : Nat
  class_name : String
  activity : String
  confidence : ℚ
  deriving Repr, DecidableEq

/-- Camera state record of the sync store (`src/utils/state_sync.py`). -/
structure CamData where
  tracks : List TrackView
  heartbeat : ℚ
  start_time : ℚ
  status : String
  stop_time : Option ℚ
  deriving Repr, DecidableEq

/-- The sync store: the JSON document, one entry per camera id. -/
abbrev Store := List (String × CamData)

/-- Dictionary assignment on a string-keyed store. -/
def storeInsert (l : Store) (k : String) (v : CamData) : Store :=
  if l.any (fun p => p.1 = k) then
    l.map (fun p => if p.1 = k then (k, v) else p)
  else l ++ [(k, v)]

/-- Embedding of `HEARTBEAT_TIMEOUT` (60 s). -/
def HEARTBEAT_TIMEOUT : ℚ := 60

/-- Embedding of `STOP_TIMEOUT` (300 s), the spec's `stop_grace`. -/
def STOP_TIMEOUT : ℚ := 300

/-- Embedding of `_create_camera_data`. -/
def create_camera_data (t : ℚ) : CamData :=
  ⟨[], t, t, "running", none⟩

/-- Embedding of `register_camera_start` (the fresh record has no
`stop_time`, so the subsequent conditional delete is a no-op). -/
def register_camera_start (cam : String) (now : ℚ) (d : Store) : Store :=
  storeInsert d cam (create_camera_data now)

/-- Embedding of `register_camera_stop`: mark stopped, stamp `stop_time`,
clear tracks, zero the heartbeat. -/
def register_camera_stop (cam : String) (now : ℚ) (d : Store) : Store :=
  d.map (fun p =>
    if p.1 = cam then
      (p.1, { p.2 with status := "stopped", stop_time := some now,
                       tracks := [], heartbeat := 0 })
    else p)

/-- Embedding of `heartbeat_camera`: refresh the heartbeat, set the status
back to `running`, and delete `stop_time`. -/
def heartbeat_camera (cam : String) (now : ℚ) (d : Store) : Store :=
  if d.any (fun p => p.1 = cam) then
    d.map (fun p =>
      if p.1 = cam then
        (p.1, { p.2 with heartbeat := now, status := "running",
                         stop_time := none })
      else p)
  else storeInsert d cam (create_camera_data now)

/-- Embedding of `save_camera_tracks`. -/
def save_camera_tracks (cam : String) (tracks : List TrackView) (now : ℚ)
    (d : Store) : Store :=
  let d1 := if d.any (fun p => p.1 = cam) then d
    else storeInsert d cam (create_camera_data now)
  d1.map (fun p =>
    if p.1 = cam then
      (p.1, { p.2 with tracks := tracks, heartbeat := now,
                       status := "running", stop_time := none })
    else p)

/-- Embedding of `_is_camera_running`. -/
def is_camera_running (c : CamData) (now : ℚ) : Bool :=
  if c.status = "stopped" then false
  else
    let st := c.stop_time.getD 0
    if st > 0 ∧ now - st < STOP_TIMEOUT then false
    else if c.heartbeat > 0 then decide (now - c.heartbeat < HEARTBEAT_TIMEOUT)
    else false

/-- Embedding of `get_running_camera_ids`. -/
def get_running_camera_ids (d : Store) (now : ℚ) : List String :=
  (d.filter (fun p => is_camera_running p.2 now)).map Prod.fst

/-! ### The argmax selection -/

/-- The fold step of `argmaxIdx`. -/
def argmaxStep (l : List ℚ) (best i : Nat) : Nat :=
  if l.getD i 0 > l.getD best 0 then i else best

lemma argmaxIdx_eq_fold (l : List ℚ) :
    argmaxIdx l = (List.range l.length).foldl (argmaxStep l) 0 := rfl

/-- Joint fold invariant: after scanning `range n` the running best is `0`
or below `n`, dominates every scanned index, and strictly dominates every
index below itself. -/
lemma argmax_fold_spec (l : List ℚ) (n : Nat) :
    ((List.range n).foldl (argmaxStep l) 0 = 0 ∨
      (List.range n).foldl (argmaxStep l) 0 < n) ∧
    (∀ i < n, l.getD i 0 ≤ l.getD ((List.range n).foldl (argmaxStep l) 0) 0) ∧
    (∀ i < (List.range n).foldl (argmaxStep l) 0,
      l.getD i 0 < l.getD ((List.range n).foldl (argmaxStep l) 0) 0) := by
  induction n with
  | zero => simp
  | succ n ih =>
    obtain ⟨hb, hmax, hstrict⟩ := ih
    rw [List.range_succ, List.foldl_append]
    set b := (List.range n).foldl (argmaxStep l) 0 with hbdef
    simp only [List.foldl_cons, List.foldl_nil]
    unfold argmaxStep
    split
    · rename_i hgt
      refine ⟨Or.inr (Nat.lt_succ_self n), ?_, ?_⟩
      · intro i hi
        rcases Nat.lt_succ_iff_lt_or_eq.mp hi with h | h
        · exact le_of_lt (lt_of_le_of_lt (hmax i h) hgt)
        · simp [h]
      · intro i hi
        exact lt_of_le_of_lt (hmax i hi) hgt
    · rename_i hle
      push_neg at hle
      refine ⟨?_, ?_, hstrict⟩
      · rcases hb with h | h
        · exact Or.inl h
        · exact Or.inr (Nat.lt_succ_of_lt h)
      · intro i hi
        rcases Nat.lt_succ_iff_lt_or_eq.mp hi with h | h
        · exact hmax i h
        · simpa [h] using hle

/-- For a nonempty list, `argmaxIdx` is in range, attains the maximum, and
is the first (row-major least) index attaining it. -/
lemma argmaxIdx_spec (l : List ℚ) (h : l ≠ []) :
    argmaxIdx l < l.length ∧
    (∀ i < l.length, l.getD i 0 ≤ l.getD (argmaxIdx l) 0) ∧
    (∀ i < argmaxIdx l, l.getD i 0 < l.getD (argmaxIdx l) 0) := by
  have hn : 0 < l.length := List.length_pos.mpr h
  obtain ⟨hb, hmax, hstrict⟩ := argmax_fold_spec l l.length
  rw [argmaxIdx_eq_fold]
  refine ⟨?_, hmax, hstrict⟩
  rcases hb with h0 | hlt
  · rw [h0]; exact hn
  · exact hlt

/-! ### Termination of the greedy loop -/

/-- Setting a cell that currently passes the threshold to `0` strictly
decreases the number of cells passing a positive threshold. -/
lemma countP_set_zero_lt (thr : ℚ) (hthr : 0 < thr) :
    ∀ (l : List ℚ) (k : Nat), k < l.length → thr ≤ l.getD k 0 →
    (l.set k 0).countP (fun x => decide (thr ≤ x)) <
      l.countP (fun x => decide (thr ≤ x)) := by
  intro l
  induction l with
  | nil => intro k hk; simp at hk
  | cons a t ih =>
    intro k hk hv
    cases k with
    | zero =>
      simp only [List.set_cons_zero, List.countP_cons]
      simp only [List.getD_cons_zero] at hv
      have h0 : ¬ thr ≤ (0 : ℚ) := not_le.mpr hthr
      simp [hv, h0]
    | succ k =>
      simp only [List.set_cons_succ, List.countP_cons]
      simp only [List.getD_cons_succ] at hv
      simp only [List.length_cons, Nat.succ_lt_succ_iff] at hk
      have := ih k hk hv
      omega

/-- Measure for the greedy loop: number of cells at or above the threshold. -/
def greedyMeasure (thr : ℚ) (s : GState) : Nat :=
  s.flat.countP (fun x => decide (thr ≤ x))

/-- With a positive threshold, each non-final iteration of the greedy loop
zeroes a cell that was at or above the threshold, so the measure strictly
decreases. -/
lemma greedyStep_measure_lt (thr : ℚ) (hthr : 0 < thr) (ids : List Nat)
    (ncols : Nat) (s s1 : GState)
    (hstep : greedyStep thr ids ncols s = Sum.inr s1) :
    greedyMeasure thr s1 < greedyMeasure thr s := by
  unfold greedyStep at hstep
  split at hstep
  · cases hstep
  next hempty =>
    simp only [] at hstep
    split at hstep
    · cases hstep
    next hlt =>
      have hrange := (argmaxIdx_spec s.flat hempty).1
      have hval : thr ≤ s.flat.getD (argmaxIdx s.flat) 0 := not_lt.mp hlt
      have hcount := countP_set_zero_lt thr hthr s.flat (argmaxIdx s.flat)
        hrange hval
      split at hstep
      · cases hstep
        simpa [greedyMeasure] using hcount
      · cases hstep
        simpa [greedyMeasure] using hcount

/-- With a positive threshold the greedy loop finishes within any fuel
exceeding the measure. -/
lemma greedyRun_terminates (thr : ℚ) (hthr : 0 < thr) (ids : List Nat)
    (ncols : Nat) :
    ∀ (fuel : Nat) (s : GState), greedyMeasure thr s < fuel →
    ∃ r, greedyRun thr ids ncols fuel s = some r := by
  intro fuel
  induction fuel with
  | zero => intro s hs; omega
  | succ fuel ih =>
    intro s hs
    unfold greedyRun
    cases hstep : greedyStep thr ids ncols s with
    | inl r => exact ⟨r, rfl⟩
    | inr s1 =>
      have hm := greedyStep_measure_lt thr hthr ids ncols s s1 hstep
      exact ih s1 (by omega)

lemma greedyMatch_terminates (thr : ℚ) (hthr : 0 < thr) (ids : List Nat)
    (matrix : List (List ℚ)) : ∃ r, greedyMatch thr ids matrix = some r := by
  unfold greedyMatch
  apply greedyRun_terminates thr hthr
  have := List.countP_le_length (l := matrix.flatten)
    (p := fun x => decide (thr ≤ x))
  simp only [greedyMeasure]
  omega

lemma match_terminates (thr : ℚ) (hthr : 0 < thr) (usePred : Bool)
    (detections : List BBox) (tracks : List (Nat × Track)) :
    ∃ r, Matcher.match thr usePred detections tracks = some r := by
  unfold Matcher.match
  split
  · exact ⟨[], rfl⟩
  · exact greedyMatch_terminates thr hthr _ _

/-- A degenerate box (zero or negative width or height) has IoU `0` with
every box. -/
lemma compute_iou_degenerate (a b : BBox)
    (h : a.2.2.1 ≤ a.1 ∨ a.2.2.2 ≤ a.2.1) : compute_iou a b = 0 := by
  obtain ⟨xa1, ya1, xa2, ya2⟩ := a
  obtain ⟨xb1, yb1, xb2, yb2⟩ := b
  simp only at h
  unfold compute_iou
  simp only []
  rcases h with h | h
  · have h1 : max (0 : ℚ) (min xa2 xb2 - max xa1 xb1) = 0 :=
      max_eq_left (by
        have h2 : min xa2 xb2 ≤ xa2 := min_le_left _ _
        have h3 : xa1 ≤ max xa1 xb1 := le_max_left _ _
        linarith)
    have h4 : max (0 : ℚ) (xa2 - xa1) = 0 := max_eq_left (by linarith)
    rw [h1, h4]
    simp
  · have h1 : max (0 : ℚ) (min ya2 yb2 - max ya1 yb1) = 0 :=
      max_eq_left (by
        have h2 : min ya2 yb2 ≤ ya2 := min_le_left _ _
        have h3 : ya1 ≤ max ya1 yb1 := le_max_left _ _
        linarith)
    have h4 : max (0 : ℚ) (ya2 - ya1) = 0 := max_eq_left (by linarith)
    rw [h1, h4]
    simp

/-- `Tracker.update` on an empty detection list and empty track set is a
no-op. -/
lemma update_empty_noop (thr : ℚ) (maxLost : Nat) (usePred : Bool) (now : ℚ)
    (s : TrackerState) (hs : s.tracks = []) :
    Tracker.update thr maxLost usePred now s [] = some s := by
  obtain ⟨tracks, next⟩ := s
  simp only at hs
  subst hs
  rfl

/-- `Tracker.update` always returns a state when the IoU threshold is
positive. -/
lemma update_total (thr : ℚ) (hthr : 0 < thr) (maxLost : Nat)
    (usePred : Bool) (now : ℚ) (s : TrackerState)
    (detections : List Detection) :
    ∃ s1, Tracker.update thr maxLost usePred now s detections = some s1 := by
  unfold Tracker.update
  simp only []
  obtain ⟨r, hr⟩ := match_terminates thr hthr usePred
    (detections.map (fun d => (d.1, d.2.1, d.2.2.1, d.2.2.2.1))) s.tracks
  rw [hr]
  exact ⟨_, rfl⟩

end LocalPulse

namespace LocalPulse

/-- Concrete tracker state used to refute the no-mutation part of the
totality claim: a single live track. -/
def c8state : TrackerState :=
  ⟨[(1, { id := 1, bbox := (0, 0, 10, 10), cls := 0, score := 1 / 2,
          history := [(5, 5)] })], 2⟩

/-- The state actually produced from `c8state` by an update with an empty
detection list: the track aged to `lost_frames = 1`, with the predicted
center appended to its history. -/
def c8updated : TrackerState :=
  ⟨[(1, { id := 1, bbox := (0, 0, 10, 10), cls := 0, score := 1 / 2,
          hits := 1, lost_frames := 1, history := [(5, 5), (5, 5)] })], 2⟩

/-- C8 counterexample: the claim says pathological inputs (here: the empty
detection list) "produce no mutation of the tracker state", but an update
with no detections ages every existing track (`lost_frames` increments and
a predicted center is appended), so the state changes. -/
theorem c8_no_mutation_counterexample :
    Tracker.update (1 / 5) 45 true 0 c8state [] = some c8updated ∧
    Tracker.update (1 / 5) 45 true 0 c8state [] ≠ some c8state := by
  have h1 : Tracker.update (1 / 5) 45 true 0 c8state [] = some c8updated := by
    rw [Tracker.update]
    norm_num [Matcher.match, update_matched_tracks, create_new_tracks,
      update_lost_tracks, age_track, apply_prediction, c8state, c8updated,
      Track.predict_bbox, Track.add_position, Track.center, pyInt,
      List.filterMap_cons]
  refine ⟨h1, ?_⟩
  intro h2
  rw [h1] at h2
  have h3 := congrArg
    (Option.map (fun st => st.tracks.map (fun p => p.2.lost_frames))) h2
  simp [c8updated, c8state] at h3

/-- C8 amended: `Tracker.update` is total for every positive IoU threshold
(the embedding returns a state, i.e. the Python loop terminates and no
operation can raise); when both the detection list and the track set are
empty the update is a no-op; and a zero- or negative-area box has IoU `0`
against every box, so (for a positive threshold) it can never be selected
by the matcher.  An empty detection list with live tracks, or detections
with an empty track set, DO mutate the state (aging resp. track creation). -/
theorem c8_update_total_amended (thr : ℚ) (hthr : 0 < thr) (maxLost : Nat)
    (usePred : Bool) (now : ℚ) (s : TrackerState)
    (detections : List Detection) :
    (∃ s1, Tracker.update thr maxLost usePred now s detections = some s1) ∧
    (s.tracks = [] → Tracker.update thr maxLost usePred now s [] = some s) ∧
    (∀ a b : BBox, a.2.2.1 ≤ a.1 ∨ a.2.2.2 ≤ a.2.1 → compute_iou a b = 0) := by
  refine ⟨update_total thr hthr maxLost usePred now s detections, ?_, ?_⟩
  · intro hs
    exact update_empty_noop thr maxLost usePred now s hs
  · intro a b h
    exact compute_iou_degenerate a b h

/-- C8 amended, witness: the theorem applied at a concrete positive
threshold, state and detection list. -/
theorem c8_update_total_amended_witness :
    (0 < (1 / 5 : ℚ)) ∧
    ((∃ s1, Tracker.update (1 / 5) 45 true 0 initialTracker [] = some s1) ∧
     (initialTracker.tracks = [] →
       Tracker.update (1 / 5) 45 true 0 initialTracker [] = some initialTracker) ∧
     (∀ a b : BBox, a.2.2.1 ≤ a.1 ∨ a.2.2.2 ≤ a.2.1 → compute_iou a b = 0)) :=
  ⟨by norm_num,
   c8_update_total_amended (1 / 5) (by norm_num) 45 true 0 initialTracker []⟩

/-- C10: with a positive `iou_threshold` the greedy matching loop
terminates: each non-final iteration zeroes the argmax cell, strictly
decreasing the number of cells at or above the threshold, so within
`|D|·|T| + 1` iterations (the fuel of `greedyMatch`) the loop breaks; in
particular `Matcher.match` always returns a mapping. -/
theorem c10_greedy_termination (thr : ℚ) (hthr : 0 < thr) :
    (∀ ids ncols s s1, greedyStep thr ids ncols s = Sum.inr s1 →
      greedyMeasure thr s1 < greedyMeasure thr s) ∧
    (∀ ids matrix, ∃ r, greedyMatch thr ids matrix = some r) ∧
    (∀ usePred detections tracks,
      ∃ r, Matcher.match thr usePred detections tracks = some r) :=
  ⟨fun ids ncols s s1 h => greedyStep_measure_lt thr hthr ids ncols s s1 h,
   fun ids matrix => greedyMatch_terminates thr hthr ids matrix,
   fun usePred detections tracks =>
     match_terminates thr hthr usePred detections tracks⟩

/-- C10 witness: termination at the default threshold on a concrete
2×2 matrix. -/
theorem c10_greedy_termination_witness :
    (0 < (1 / 5 : ℚ)) ∧
    ∃ r, greedyMatch (1 / 5) [3, 7] [[1, 1 / 2], [1 / 2, 1]] = some r :=
  ⟨by norm_num,
   (c10_greedy_termination (1 / 5) (by norm_num)).2.1 [3, 7]
     [[1, 1 / 2], [1 / 2, 1]]⟩

/-- C2: the claim says that after `register_stop(c)` the store excludes `c`
from `running_ids()` for at least `stop_grace` (300 s) even if heartbeats
continue to arrive.  The code violates this: `heartbeat_camera` sets the
status back to `running` and deletes `stop_time`, so a single heartbeat
10 s after the stop makes the camera run again immediately.  This theorem
evaluates the failing trace: start at t=0, stop at t=10, heartbeat at
t=20; at t=20 (far inside the 300 s grace window) the camera is listed. -/
theorem c2_stop_grace_violated :
    get_running_camera_ids
      (heartbeat_camera "cam" 20
        (register_camera_stop "cam" 10
          (register_camera_start "cam" 0 []))) 20 = ["cam"] ∧
    (20 : ℚ) - 10 < STOP_TIMEOUT := by
  constructor
  · norm_num [get_running_camera_ids, heartbeat_camera, register_camera_stop,
      register_camera_start, storeInsert, create_camera_data,
      is_camera_running, STOP_TIMEOUT, HEARTBEAT_TIMEOUT]
    simp
  · norm_num [STOP_TIMEOUT]

/-! ### C5: velocity update -/

/-- The claim's velocity formula: over the tail of `n = min(5, |history|)`
points, with consecutive pairs and 1-based weights `wᵢ = i`, the velocity
is `(Σ wᵢ·Δxᵢ / Σ wᵢ, Σ wᵢ·Δyᵢ / Σ wᵢ)`; `(0, 0)` for `|history| < 2`. -/
def velocitySpec (history : List (Int × Int)) : ℚ × ℚ :=
  if history.length < 2 then (0, 0)
  else
    let pts := Track.lastSlice (min 5 history.length) history
    let m := pts.length - 1
    let w : ℚ := ∑ i ∈ Finset.range m, ((i : ℚ) + 1)
    ((∑ i ∈ Finset.range m, ((i : ℚ) + 1) *
        (((pts.getD (i + 1) (0, 0)).1 - (pts.getD i (0, 0)).1 : Int) : ℚ)) / w,
     (∑ i ∈ Finset.range m, ((i : ℚ) + 1) *
        (((pts.getD (i + 1) (0, 0)).2 - (pts.getD i (0, 0)).2 : Int) : ℚ)) / w)

/-- The accumulation loop of `update_velocity` computes exactly the three
sums of the claim formula. -/
lemma velSums_eq_sums (pts : List (Int × Int)) (m : Nat) :
    (List.range m).foldl
      (fun acc k =>
        let i := k + 1
        let p := pts.getD (i - 1) (0, 0)
        let q := pts.getD i (0, 0)
        (acc.1 + ((q.1 - p.1 : Int) : ℚ) * i,
         acc.2.1 + ((q.2 - p.2 : Int) : ℚ) * i,
         acc.2.2 + (i : ℚ)))
      (0, 0, 0) =
    (∑ i ∈ Finset.range m, ((i : ℚ) + 1) *
        (((pts.getD (i + 1) (0, 0)).1 - (pts.getD i (0, 0)).1 : Int) : ℚ),
     ∑ i ∈ Finset.range m, ((i : ℚ) + 1) *
        (((pts.getD (i + 1) (0, 0)).2 - (pts.getD i (0, 0)).2 : Int) : ℚ),
     ∑ i ∈ Finset.range m, ((i : ℚ) + 1)) := by
  induction m with
  | zero => simp
  | succ m ih =>
    rw [List.range_succ, List.foldl_append, ih]
    simp only [List.foldl_cons, List.foldl_nil, Finset.sum_range_succ]
    refine Prod.ext ?_ (Prod.ext ?_ ?_) <;> simp <;> ring

lemma velSums_def (pts : List (Int × Int)) :
    Track.velSums pts =
    (∑ i ∈ Finset.range (pts.length - 1), ((i : ℚ) + 1) *
        (((pts.getD (i + 1) (0, 0)).1 - (pts.getD i (0, 0)).1 : Int) : ℚ),
     ∑ i ∈ Finset.range (pts.length - 1), ((i : ℚ) + 1) *
        (((pts.getD (i + 1) (0, 0)).2 - (pts.getD i (0, 0)).2 : Int) : ℚ),
     ∑ i ∈ Finset.range (pts.length - 1), ((i : ℚ) + 1)) :=
  velSums_eq_sums pts (pts.length - 1)

lemma lastSlice_length (n : Nat) (l : List α) (hn : 0 < n) :
    (Track.lastSlice n l).length = min n l.length := by
  unfold Track.lastSlice
  rw [if_neg (Nat.pos_iff_ne_zero.mp hn)]
  simp only [List.length_drop]
  omega

/-- The weight sum over at least one pair is positive. -/
lemma weight_sum_pos (m : Nat) (hm : 0 < m) :
    0 < ∑ i ∈ Finset.range m, ((i : ℚ) + 1) := by
  apply Finset.sum_pos
  · intro i _
    positivity
  · exact Finset.nonempty_range_iff.mpr (Nat.pos_iff_ne_zero.mp hm)

/-- C5: `Track.update_velocity` computes exactly the claim formula: `(0,0)`
for histories shorter than 2, else the weighted average of the consecutive
displacements of the `min(5, |history|)`-tail, with 1-based weights. -/
theorem c5_velocity_formula (history : List (Int × Int)) :
    Track.update_velocity history = velocitySpec history := by
  unfold Track.update_velocity velocitySpec
  by_cases hlen : history.length < 2
  · rw [if_pos hlen, if_pos hlen]
  · rw [if_neg hlen, if_neg hlen]
    simp only []
    push_neg at hlen
    have hn : 0 < min 5 history.length := by omega
    have hpts : (Track.lastSlice (min 5 history.length) history).length =
        min 5 history.length := by
      rw [lastSlice_length _ _ hn]
      omega
    set pts := Track.lastSlice (min 5 history.length) history with hptsdef
    have hm : 0 < pts.length - 1 := by omega
    have hw := weight_sum_pos (pts.length - 1) hm
    rw [velSums_def]
    simp only []
    rw [if_pos hw]

/-! ### C3: activity-change logging -/

/-- A loggable class name is truthy. -/
lemma valid_truthy (t : Track) (hv : is_valid_track_class t = true) :
    truthy t.cls_name = true := by
  unfold is_valid_track_class at hv
  have h : t.cls_name = some "person" ∨ t.cls_name = some "train" := by
    simpa using hv
  rcases h with h | h <;> rw [h] <;> simp [truthy]

/-- A frame where the change-trigger fires: one non-force record is
written and `previous_activity` is set to the current activity. -/
lemma log_change_step (now lp : ℚ) (t : Track)
    (hv : is_valid_track_class t = true) (ha : truthy t.activity = true)
    (hc : t.previous_activity = none ∨ t.activity ≠ t.previous_activity) :
    log_activity_changes now lp [t] =
      ([⟨t.id, t.cls_name.getD "", t.activity.getD "", t.activity_conf, false⟩],
       [{ t with previous_activity := t.activity }],
       if now - lp ≥ PERIODIC_LOG_INTERVAL then now else lp) := by
  have hs : should_log_track_change t = true := by
    unfold should_log_track_change
    rcases hc with h | h <;> simp [hv, ha, h]
  have hcn : truthy t.cls_name = true := valid_truthy t hv
  unfold log_activity_changes processTrackLog
  simp [hs, log_track_activity, hcn, ha]

/-- A frame where the activity is unchanged (and not `None`): no non-force
record is written and the track (in particular `previous_activity`) is
untouched, regardless of whether the periodic flush fires. -/
lemma log_nochange_step (now lp : ℚ) (t : Track)
    (hsame : t.activity = t.previous_activity) (hne : t.activity ≠ none) :
    ((log_activity_changes now lp [t]).1.filter (fun r => !r.force) = []) ∧
    (log_activity_changes now lp [t]).2.1 = [t] := by
  have hs : should_log_track_change t = false := by
    unfold should_log_track_change
    cases hprev : t.previous_activity with
    | none => exact absurd (hsame.trans hprev) hne
    | some x => simp [hprev, hsame]
  unfold log_activity_changes processTrackLog
  refine ⟨?_, ?_⟩ <;>
    · simp only [hs, Bool.false_eq_true, if_false, List.map_cons, List.map_nil]
      split
      · unfold log_track_activity
        split <;> simp
      · simp

/-- C3: for a loggable-class track whose classified activity over five
successive frames is `A, A, A, B, B` (`A`, `B` non-empty, distinct),
exactly two change-triggered (non-force) records are written — one at the
first observation of `A`, one at the transition to `B` — regardless of
which frames also fire the periodic force-flush (the flush does not touch
`previous_activity`, so it neither suppresses nor duplicates them). -/
theorem c3_activity_change_log (cls A B : String) (conf : ℚ) (tid : Nat)
    (t1 t2 t3 t4 t5 lp0 : ℚ) (hcls : cls = "person" ∨ cls = "train")
    (hA : A ≠ "") (hB : B ≠ "") (hAB : A ≠ B) :
    (logTrace tid (some cls) conf none lp0
        [(t1, some A), (t2, some A), (t3, some A), (t4, some B),
         (t5, some B)]).filter (fun r => !r.force) =
    [⟨tid, cls, A, conf, false⟩, ⟨tid, cls, B, conf, false⟩] := by
  rcases hcls with h | h <;> subst h <;>
  · simp only [logTrace]
    simp [log_change_step, log_nochange_step, hA, hB, hAB, Ne.symm hAB,
      is_valid_track_class, truthy, List.filter_append]

/-- C3 witness: the theorem at a concrete trace (`standing` to `moving`,
person class, frames at 0, 1, 2, 40, 41 s so the fourth frame also crosses
the periodic-flush cadence). -/
theorem c3_activity_change_log_witness :
    (logTrace 7 (some "person") (9 / 10) none 0
        [(0, some "standing"), (1, some "standing"), (2, some "standing"),
         (40, some "moving"), (41, some "moving")]).filter
      (fun r => !r.force) =
    [⟨7, "person", "standing", 9 / 10, false⟩,
     ⟨7, "person", "moving", 9 / 10, false⟩] :=
  c3_activity_change_log "person" "standing" "moving" (9 / 10) 7
    0 1 2 40 41 0 (Or.inl rfl) (by simp) (by simp) (by simp)

/-! ### C6: person speed and activity -/

/-- The claim's consecutive-center distances over a point list. -/
noncomputable def consecDists (pts : List (Int × Int)) : List ℝ :=
  (pts.zip pts.tail).map (fun pq => hypot (pq.2.1 - pq.1.1) (pq.2.2 - pq.1.2))

/-- The median as selected by the source: upper middle element of the
ascending sort (`distances[len // 2]` after `distances.sort()`). -/
noncomputable def medianUpper (l : List ℝ) : ℝ :=
  (l.insertionSort (· ≤ ·)).getD (l.length / 2) 0

/-- The claim's speed formula: median of the consecutive-center distances
over the last `window` history points, multiplied by `fps`; `0` whenever
the history is shorter than 3. -/
noncomputable def specSpeed (window : Nat) (fps : ℝ)
    (history : List (Int × Int)) : ℝ :=
  if history.length < 3 then 0
  else medianUpper (consecDists (Track.lastSlice window history)) * fps

/-- The index-based distance loop of the source equals the zip-based
consecutive-distances list. -/
lemma speedDistances_eq_consecDists (pts : List (Int × Int)) :
    speedDistances pts = consecDists pts := by
  induction pts with
  | nil => simp [speedDistances, consecDists]
  | cons p rest ih =>
    cases rest with
    | nil => simp [speedDistances, consecDists]
    | cons q rest2 =>
      unfold speedDistances consecDists
      rw [List.length_cons, Nat.add_sub_cancel, List.length_cons,
        List.range_succ_eq_map, List.map_cons, List.map_map]
      unfold speedDistances consecDists at ih
      rw [List.length_cons, Nat.add_sub_cancel] at ih
      simp only [List.zip_cons_cons, List.tail_cons, List.map_cons]
      rw [List.cons_eq_cons]
      constructor
      · simp
      · simp only [List.tail_cons] at ih
        rw [← ih]
        apply List.map_congr_left
        intro k _
        simp [Function.comp]

/-- The source speed computation equals the claim formula. -/
lemma compute_speed_eq_spec (window : Nat) (fps : ℝ)
    (history : List (Int × Int)) :
    compute_speed window fps history = specSpeed window fps history := by
  unfold compute_speed specSpeed
  by_cases hlen : history.length < 3
  · rw [if_pos hlen, if_pos hlen]
  · rw [if_neg hlen, if_neg hlen]
    simp only [speedDistances_eq_consecDists]
    by_cases hd : (consecDists (Track.lastSlice window history)).isEmpty
    · rw [if_pos hd]
      rw [List.isEmpty_iff] at hd
      rw [hd]
      simp [medianUpper]
    · rw [if_neg hd]
      rfl

/-- C6: for a person-class track the classifier computes the speed as the
median (upper middle of the sort) of consecutive-center distances over the
last `window` history points times `fps` (`0` when `|history| < 3`), and
assigns `standing` with confidence 0.90 when the speed is below the
threshold, else `moving` with confidence 0.90. -/
theorem c6_person_speed_activity (t : Track) (window : Nat)
    (fps person_speed_threshold vehicle_displacement_threshold : ℝ)
    (vehicle_min_history : Nat) (hperson : t.cls_name = some "person") :
    (classifyTrack fps window person_speed_threshold
        vehicle_displacement_threshold vehicle_min_history t).activity =
      some (if compute_speed window fps t.history < person_speed_threshold
        then "standing" else "moving") ∧
    (classifyTrack fps window person_speed_threshold
        vehicle_displacement_threshold vehicle_min_history t).activity_conf =
      9 / 10 ∧
    compute_speed window fps t.history = specSpeed window fps t.history ∧
    (t.history.length < 3 → compute_speed window fps t.history = 0) := by
  refine ⟨?_, ?_, compute_speed_eq_spec window fps t.history, ?_⟩
  · unfold classifyTrack
    rw [if_pos hperson]
    unfold PersonClassifier.classify
    split
    · next h => simp [if_pos h]
    · next h => simp [if_neg h]
  · unfold classifyTrack
    rw [if_pos hperson]
    unfold PersonClassifier.classify
    split <;> simp
  · intro h
    unfold compute_speed
    rw [if_pos h]

/-- C6 witness: the theorem at a concrete person track. -/
theorem c6_person_speed_activity_witness :
    (({ id := 1, bbox := (0, 0, 2, 2), cls := 0, score := 1,
        history := [(1, 1), (1, 1), (1, 1)],
        cls_name := some "person" } : Track).cls_name = some "person") ∧
    ((classifyTrack 25 15 15 8 5
        { id := 1, bbox := (0, 0, 2, 2), cls := 0, score := 1,
          history := [(1, 1), (1, 1), (1, 1)],
          cls_name := some "person" }).activity =
      some (if compute_speed 15 25 [(1, 1), (1, 1), (1, 1)] < 15
        then "standing" else "moving") ∧
    (classifyTrack 25 15 15 8 5
        { id := 1, bbox := (0, 0, 2, 2), cls := 0, score := 1,
          history := [(1, 1), (1, 1), (1, 1)],
          cls_name := some "person" }).activity_conf = 9 / 10 ∧
    compute_speed 15 25 [(1, 1), (1, 1), (1, 1)] =
      specSpeed 15 25 [(1, 1), (1, 1), (1, 1)] ∧
    (([(1, 1), (1, 1), (1, 1)] : List (Int × Int)).length < 3 →
      compute_speed 15 25 [(1, 1), (1, 1), (1, 1)] = 0)) :=
  ⟨rfl, c6_person_speed_activity _ 15 25 15 8 5 rfl⟩

/-! ### C7: high-visibility clothing detection -/

/-- Number of torso pixels passing the HSV gate. -/
def torsoCount (cvt : α → Nat × Nat × Nat) (hmin hmax smin vmin : Nat)
    (torso : List (List α)) : Nat :=
  torso.flatten.countP (fun p => hvGate hmin hmax smin vmin (cvt p))

/-- Total number of torso pixels. -/
def torsoTotal (torso : List (List α)) : Nat :=
  torso.flatten.length

/-- At the default coverage 0.03, the source's epsilon-guarded denominator
(`size + 1e-6`) decides exactly the same comparison as the plain pixel
fraction, because `100·c` and `3·m` are integers. -/
lemma ratio_eps_iff (c m : Nat) (hm : 1 ≤ m) :
    ((3 : ℚ) / 100 < (c : ℚ) / ((m : ℚ) + 1 / 1000000)) ↔
    ((3 : ℚ) / 100 < (c : ℚ) / (m : ℚ)) := by
  have hd1 : (0 : ℚ) < (m : ℚ) + 1 / 1000000 := by positivity
  have hd2 : (0 : ℚ) < (m : ℚ) := by exact_mod_cast hm
  rw [div_lt_div_iff₀ (by norm_num) hd1, div_lt_div_iff₀ (by norm_num) hd2]
  constructor
  · intro h
    linarith
  · intro h
    have hq : (3 : ℚ) * m < c * 100 := h
    have hn : 3 * m < c * 100 := by exact_mod_cast hq
    have hn1 : 3 * m + 1 ≤ c * 100 := hn
    have hq1 : (3 : ℚ) * m + 1 ≤ (c : ℚ) * 100 := by exact_mod_cast hn1
    linarith

/-- The coverage test at the default coverage, restated as the plain pixel
fraction of the claim. -/
lemma hasHighVis_iff (cvt : α → Nat × Nat × Nat) (hmin hmax smin vmin : Nat)
    (img : List (List α)) :
    hasHighVis cvt hmin hmax smin vmin (3 / 100) img = true ↔
    (3 : ℚ) / 100 <
      (torsoCount cvt hmin hmax smin vmin img : ℚ) /
        (torsoTotal img : ℚ) := by
  unfold hasHighVis torsoCount torsoTotal
  by_cases hemp : img.flatten.isEmpty
  · rw [if_pos hemp]
    rw [List.isEmpty_iff] at hemp
    rw [hemp]
    simp
    norm_num
  · rw [if_neg hemp]
    have hm : 1 ≤ img.flatten.length := by
      rw [List.isEmpty_iff] at hemp
      have := List.length_pos.mpr hemp
      omega
    simp only [decide_eq_true_eq, gt_iff_lt]
    exact ratio_eps_iff _ _ hm

/-- C7: for a person track with PPE detection enabled, a degenerate
(zero- or negative-area) integer box yields clothing `unknown`; otherwise
the label is `high-vis` exactly when the fraction of torso pixels (upper
45% of the box height, full box width) passing the HSV gate exceeds the
default coverage 0.03, and `none` otherwise. -/
theorem c7_clothing_label (α : Type) (cvt : α → Nat × Nat × Nat)
    (hmin hmax smin vmin : Nat) (frame : List (List α)) (t : Track)
    (hperson : t.cls_name = some "person") :
    ((pyInt t.bbox.2.2.1 ≤ pyInt t.bbox.1 ∨
        pyInt t.bbox.2.2.2 ≤ pyInt t.bbox.2.1) →
      (detect_clothing_track cvt hmin hmax smin vmin (3 / 100) frame
        t).clothing = some "unknown") ∧
    (¬ (pyInt t.bbox.2.2.1 ≤ pyInt t.bbox.1 ∨
        pyInt t.bbox.2.2.2 ≤ pyInt t.bbox.2.1) →
      ((detect_clothing_track cvt hmin hmax smin vmin (3 / 100) frame
          t).clothing = some "high-vis" ↔
        (3 : ℚ) / 100 <
          (torsoCount cvt hmin hmax smin vmin
            (torsoRegion (pyInt t.bbox.1) (pyInt t.bbox.2.1)
              (pyInt t.bbox.2.2.2) (pyInt t.bbox.2.2.1) frame) : ℚ) /
          (torsoTotal
            (torsoRegion (pyInt t.bbox.1) (pyInt t.bbox.2.1)
              (pyInt t.bbox.2.2.2) (pyInt t.bbox.2.2.1) frame) : ℚ)) ∧
      (¬ ((3 : ℚ) / 100 <
          (torsoCount cvt hmin hmax smin vmin
            (torsoRegion (pyInt t.bbox.1) (pyInt t.bbox.2.1)
              (pyInt t.bbox.2.2.2) (pyInt t.bbox.2.2.1) frame) : ℚ) /
          (torsoTotal
            (torsoRegion (pyInt t.bbox.1) (pyInt t.bbox.2.1)
              (pyInt t.bbox.2.2.2) (pyInt t.bbox.2.2.1) frame) : ℚ)) →
        (detect_clothing_track cvt hmin hmax smin vmin (3 / 100) frame
          t).clothing = some "none")) := by
  have hnp : ¬ (t.cls_name ≠ some "person") := by simp [hperson]
  constructor
  · intro hdeg
    unfold detect_clothing_track
    rw [if_neg hnp]
    unfold detectClothingLabel
    simp only []
    rw [if_pos hdeg]
  · intro hdeg
    have hlabel : (detect_clothing_track cvt hmin hmax smin vmin (3 / 100)
        frame t).clothing =
        some (if hasHighVis cvt hmin hmax smin vmin (3 / 100)
          (torsoRegion (pyInt t.bbox.1) (pyInt t.bbox.2.1)
            (pyInt t.bbox.2.2.2) (pyInt t.bbox.2.2.1) frame)
          then "high-vis" else "none") := by
      unfold detect_clothing_track
      rw [if_neg hnp]
      unfold detectClothingLabel
      simp only []
      rw [if_neg hdeg]
    rw [hlabel]
    constructor
    · rw [← hasHighVis_iff cvt hmin hmax smin vmin]
      constructor
      · intro h
        by_cases hb : hasHighVis cvt hmin hmax smin vmin (3 / 100)
            (torsoRegion (pyInt t.bbox.1) (pyInt t.bbox.2.1)
              (pyInt t.bbox.2.2.2) (pyInt t.bbox.2.2.1) frame) = true
        · exact hb
        · rw [if_neg (by simpa using hb)] at h
          simp at h
      · intro h
        rw [if_pos h]
    · intro h
      rw [← hasHighVis_iff cvt hmin hmax smin vmin] at h
      rw [if_neg (by simpa using h)]

/-! ### C1: greedy association -/

lemma getD_set_zero (l : List ℚ) (k k' : Nat) :
    (l.set k 0).getD k' 0 = if k' = k then (0 : ℚ) else l.getD k' 0 := by
  rw [List.getD_eq_getElem?_getD, List.getD_eq_getElem?_getD]
  by_cases h : k' = k
  · subst h
    rw [if_pos rfl, List.getElem?_set_self']
    cases l[k']? <;> simp
  · rw [if_neg h, List.getElem?_set_ne (fun hk => h hk.symm)]

/-- Invariant of the greedy loop, relative to the original flattened
matrix `orig`, the track-id list `ids` and the column count `ncols`:
the matrix only ever has cells zeroed; assigned detection indices are
pairwise distinct and recorded in `used_dets`; assigned track values come
from pairwise-distinct in-range column indices recorded in `used_tracks`;
and every assigned pair was at or above the threshold in `orig`. -/
def GInv (thr : ℚ) (orig : List ℚ) (ids : List Nat) (ncols : Nat)
    (s : GState) : Prop :=
  s.flat.length = orig.length ∧
  (∀ k, s.flat.getD k 0 = orig.getD k 0 ∨ s.flat.getD k 0 = 0) ∧
  (s.mapping.map Prod.fst).Nodup ∧
  (∀ m ∈ s.mapping, m.1 ∈ s.used_dets) ∧
  (∃ js : List Nat, js.Nodup ∧ (∀ j ∈ js, j ∈ s.used_tracks ∧ j < ncols) ∧
    s.mapping.map Prod.snd = js.map (fun j => ids.getD j 0)) ∧
  (∀ m ∈ s.mapping, ∃ j < ncols, m.2 = ids.getD j 0 ∧
    thr ≤ orig.getD (m.1 * ncols + j) 0)

/-- Output properties guaranteed for the mapping returned by the loop. -/
def MappingOK (thr : ℚ) (orig : List ℚ) (ids : List Nat) (ncols : Nat)
    (mp : List (Nat × Nat)) : Prop :=
  (mp.map Prod.fst).Nodup ∧
  (∃ js : List Nat, js.Nodup ∧ (∀ j ∈ js, j < ncols) ∧
    mp.map Prod.snd = js.map (fun j => ids.getD j 0)) ∧
  (∀ m ∈ mp, ∃ j < ncols, m.2 = ids.getD j 0 ∧
    thr ≤ orig.getD (m.1 * ncols + j) 0)

lemma greedyStep_preserves (thr : ℚ) (hthr : 0 < thr) (ids : List Nat)
    (ncols : Nat) (hnc : 0 < ncols) (orig : List ℚ) (s s1 : GState)
    (hinv : GInv thr orig ids ncols s)
    (hstep : greedyStep thr ids ncols s = Sum.inr s1) :
    GInv thr orig ids ncols s1 := by
  obtain ⟨hlen, hcell, hfst, hdets, ⟨js, hjsnd, hjsmem, hjsmap⟩, hpair⟩ := hinv
  unfold greedyStep at hstep
  split at hstep
  · cases hstep
  next hempty =>
    simp only [] at hstep
    split at hstep
    · cases hstep
    next hlt =>
      set k := argmaxIdx s.flat with hk
      have hkrange : k < s.flat.length := (argmaxIdx_spec s.flat hempty).1
      have hval : thr ≤ s.flat.getD k 0 := not_lt.mp hlt
      have horigval : thr ≤ orig.getD k 0 := by
        rcases hcell k with h | h
        · rw [← h]; exact hval
        · rw [h] at hval; exact absurd (lt_of_lt_of_le hthr hval) (lt_irrefl 0)
      have hjlt : k % ncols < ncols := Nat.mod_lt _ hnc
      have hksplit : (k / ncols) * ncols + k % ncols = k := by
        rw [Nat.mul_comm]
        exact Nat.div_add_mod k ncols
      split at hstep
      · -- pair already used: only the matrix cell is zeroed
        next hused =>
        cases hstep
        refine ⟨by simp [hlen], ?_, hfst, hdets, ⟨js, hjsnd, hjsmem, hjsmap⟩,
          hpair⟩
        intro k'
        rw [getD_set_zero]
        split
        · exact Or.inr rfl
        · exact hcell k'
      · -- fresh pair: assign and zero the cell
        next hfresh =>
        cases hstep
        push_neg at hfresh
        obtain ⟨hdi, htj⟩ := hfresh
        refine ⟨by simp [hlen], ?_, ?_, ?_, ?_, ?_⟩
        · intro k'
          rw [getD_set_zero]
          split
          · exact Or.inr rfl
          · exact hcell k'
        · simp only [List.map_append, List.map_cons, List.map_nil]
          rw [List.nodup_append]
          refine ⟨hfst, List.nodup_singleton _, ?_⟩
          intro a ha hb
          simp only [List.mem_singleton] at hb
          subst hb
          obtain ⟨m, hm, hma⟩ := List.mem_map.mp ha
          rw [← hma] at hdi
          exact hdi (hdets m hm)
        · intro m hm
          rcases List.mem_append.mp hm with h | h
          · exact List.mem_cons_of_mem _ (hdets m h)
          · simp only [List.mem_singleton] at h
            subst h
            exact List.mem_cons_self _ _
        · refine ⟨js ++ [k % ncols], ?_, ?_, ?_⟩
          · rw [List.nodup_append]
            refine ⟨hjsnd, List.nodup_singleton _, ?_⟩
            intro a ha hb
            simp only [List.mem_singleton] at hb
            subst hb
            exact htj (hjsmem _ ha).1
          · intro j hj
            rcases List.mem_append.mp hj with h | h
            · exact ⟨List.mem_cons_of_mem _ (hjsmem j h).1, (hjsmem j h).2⟩
            · simp only [List.mem_singleton] at h
              subst h
              exact ⟨List.mem_cons_self _ _, hjlt⟩
          · simp only [List.map_append, List.map_cons, List.map_nil, hjsmap]
        · intro m hm
          rcases List.mem_append.mp hm with h | h
          · exact hpair m h
          · simp only [List.mem_singleton] at h
            subst h
            refine ⟨k % ncols, hjlt, rfl, ?_⟩
            rw [hksplit]
            exact horigval

/-- The loop exits with the accumulated mapping. -/
lemma greedyStep_inl (thr : ℚ) (ids : List Nat) (ncols : Nat) (s : GState)
    (r : List (Nat × Nat)) (h : greedyStep thr ids ncols s = Sum.inl r) :
    r = s.mapping := by
  unfold greedyStep at h
  split at h
  · cases h; rfl
  · simp only [] at h
    split at h
    · cases h; rfl
    · split at h <;> cases h

lemma greedyRun_ok (thr : ℚ) (hthr : 0 < thr) (ids : List Nat) (ncols : Nat)
    (hnc : 0 < ncols) (orig : List ℚ) :
    ∀ (fuel : Nat) (s : GState) (mp : List (Nat × Nat)),
      GInv thr orig ids ncols s →
      greedyRun thr ids ncols fuel s = some mp →
      MappingOK thr orig ids ncols mp := by
  intro fuel
  induction fuel with
  | zero => intro s mp _ h; cases h
  | succ fuel ih =>
    intro s mp hinv hrun
    unfold greedyRun at hrun
    cases hstep : greedyStep thr ids ncols s with
    | inl r =>
      simp only [hstep] at hrun
      injection hrun with hmp
      subst hmp
      have hr := greedyStep_inl thr ids ncols s r hstep
      subst hr
      obtain ⟨_, _, hfst, _, ⟨js, hjsnd, hjsmem, hjsmap⟩, hpair⟩ := hinv
      exact ⟨hfst, ⟨js, hjsnd, fun j hj => (hjsmem j hj).2, hjsmap⟩, hpair⟩
    | inr s1 =>
      simp only [hstep] at hrun
      exact ih s1 mp
        (greedyStep_preserves thr hthr ids ncols hnc orig s s1 hinv hstep) hrun

/-- The initial loop state satisfies the invariant. -/
lemma ginv_init (thr : ℚ) (orig : List ℚ) (ids : List Nat) (ncols : Nat) :
    GInv thr orig ids ncols ⟨orig, [], [], []⟩ := by
  refine ⟨rfl, fun k => Or.inl rfl, ?_, ?_, ⟨[], ?_, ?_, ?_⟩, ?_⟩ <;> simp

/-- Distinct in-range column indices give distinct track ids when the id
list has no duplicates. -/
lemma snd_nodup_of_ids_nodup (ids : List Nat) (ncols : Nat)
    (mp : List (Nat × Nat)) (js : List Nat) (hjsnd : js.Nodup)
    (hjsmem : ∀ j ∈ js, j < ncols)
    (hjsmap : mp.map Prod.snd = js.map (fun j => ids.getD j 0))
    (hid : ids.Nodup) (hlen : ids.length = ncols) :
    (mp.map Prod.snd).Nodup := by
  rw [hjsmap]
  refine List.Nodup.map_on ?_ hjsnd
  intro x hx y hy hxy
  have hxl : x < ids.length := by rw [hlen]; exact hjsmem x hx
  have hyl : y < ids.length := by rw [hlen]; exact hjsmem y hy
  rw [List.getD_eq_getElem?_getD, List.getD_eq_getElem?_getD,
    List.getElem?_eq_getElem hxl, List.getElem?_eq_getElem hyl] at hxy
  simp only [Option.getD_some] at hxy
  exact (List.Nodup.getElem_inj_iff hid).mp hxy

/-- C1: the greedy association is deterministic and well-behaved:
(1) the argmax selection picks the cell attaining the maximum with the
row-major least flat index (ties broken deterministically toward the
first occurrence, as `numpy.argmax` does);
(2) two runs on identical input return identical mappings (the embedding
is a pure function of the input);
(3) for every positive threshold, a mapping returned by the greedy loop
assigns each detection at most once, uses pairwise-distinct in-range
column indices (hence pairwise-distinct track ids when the id list has no
duplicates), and every assigned pair had IoU at or above the threshold in
the original matrix;
(4) the same at the `Matcher.match` level: distinct detections, distinct
track ids (given distinct keys), and every assigned id is one of the
tracks. -/
theorem c1_greedy_association :
    (∀ l : List ℚ, l ≠ [] →
      argmaxIdx l < l.length ∧
      (∀ i < l.length, l.getD i 0 ≤ l.getD (argmaxIdx l) 0) ∧
      (∀ i < argmaxIdx l, l.getD i 0 < l.getD (argmaxIdx l) 0)) ∧
    (∀ (thr : ℚ) (usePred : Bool) (detections : List BBox)
        (tracks : List (Nat × Track)),
      Matcher.match thr usePred detections tracks =
        Matcher.match thr usePred detections tracks) ∧
    (∀ (thr : ℚ) (ids : List Nat) (matrix : List (List ℚ))
        (mp : List (Nat × Nat)), 0 < thr → 0 < (matrix.headD []).length →
      greedyMatch thr ids matrix = some mp →
      MappingOK thr matrix.flatten ids (matrix.headD []).length mp) ∧
    (∀ (thr : ℚ) (usePred : Bool) (detections : List BBox)
        (tracks : List (Nat × Track)) (mp : List (Nat × Nat)), 0 < thr →
      Matcher.match thr usePred detections tracks = some mp →
      (mp.map Prod.fst).Nodup ∧
      ((tracks.map Prod.fst).Nodup → (mp.map Prod.snd).Nodup) ∧
      (∀ m ∈ mp, m.2 ∈ tracks.map Prod.fst)) := by
  have hrun : ∀ (thr : ℚ) (ids : List Nat) (matrix : List (List ℚ))
      (mp : List (Nat × Nat)), 0 < thr → 0 < (matrix.headD []).length →
      greedyMatch thr ids matrix = some mp →
      MappingOK thr matrix.flatten ids (matrix.headD []).length mp := by
    intro thr ids matrix mp hthr hnc hm
    unfold greedyMatch at hm
    exact greedyRun_ok thr hthr ids _ hnc matrix.flatten _ _ mp
      (ginv_init thr matrix.flatten ids _) hm
  refine ⟨fun l hl => argmaxIdx_spec l hl, fun _ _ _ _ => rfl, hrun, ?_⟩
  intro thr usePred detections tracks mp hthr hm
  unfold Matcher.match at hm
  split at hm
  · injection hm with hmp
    subst hmp
    simp
  next hne =>
    push_neg at hne
    obtain ⟨htr, hdet⟩ := hne
    obtain ⟨d, ds, hd⟩ := List.exists_cons_of_ne_nil hdet
    have hhead : ((buildIouMatrix detections
        (tracks.map (fun p => getTrackBox usePred p.2))).headD []).length =
        tracks.length := by
      rw [hd]
      unfold buildIouMatrix
      simp
    have hnc : 0 < ((buildIouMatrix detections
        (tracks.map (fun p => getTrackBox usePred p.2))).headD []).length := by
      rw [hhead]
      exact List.length_pos.mpr htr
    have hok := hrun thr (tracks.map Prod.fst) _ mp hthr hnc hm
    obtain ⟨hfst, ⟨js, hjsnd, hjsmem, hjsmap⟩, hpair⟩ := hok
    have hidlen : (tracks.map Prod.fst).length = tracks.length := by simp
    refine ⟨hfst, ?_, ?_⟩
    · intro hidnd
      exact snd_nodup_of_ids_nodup (tracks.map Prod.fst) _ mp js hjsnd
        (fun j hj => hjsmem j hj) hjsmap hidnd (by rw [hidlen, hhead])
    · intro m hmem
      obtain ⟨j, hj, hjid, _⟩ := hpair m hmem
      have hjl : j < (tracks.map Prod.fst).length := by
        rw [hidlen, ← hhead]
        exact hj
      rw [hjid, List.getD_eq_getElem?_getD, List.getElem?_eq_getElem hjl]
      simp only [Option.getD_some]
      exact List.getElem_mem hjl

/-- C1 witness: the argmax part applied to a concrete list with a tie
(both entries maximal, index 0 selected), and the match-level part applied
to a concrete one-detection one-track input. -/
theorem c1_greedy_association_witness :
    ((([(1 : ℚ), 1] : List ℚ) ≠ []) ∧
      (argmaxIdx [(1 : ℚ), 1] < ([(1 : ℚ), 1] : List ℚ).length ∧
       (∀ i < ([(1 : ℚ), 1] : List ℚ).length,
         ([(1 : ℚ), 1] : List ℚ).getD i 0 ≤
           ([(1 : ℚ), 1] : List ℚ).getD (argmaxIdx [(1 : ℚ), 1]) 0) ∧
       (∀ i < argmaxIdx [(1 : ℚ), 1],
         ([(1 : ℚ), 1] : List ℚ).getD i 0 <
           ([(1 : ℚ), 1] : List ℚ).getD (argmaxIdx [(1 : ℚ), 1]) 0))) ∧
    ((([(0, 3)] : List (Nat × Nat)).map Prod.fst).Nodup ∧
      ((([(3, { id := 3, bbox := (0, 0, 2, 2), cls := 0, score := 1 })] :
          List (Nat × Track)).map Prod.fst).Nodup →
        (([(0, 3)] : List (Nat × Nat)).map Prod.snd).Nodup) ∧
      (∀ m ∈ ([(0, 3)] : List (Nat × Nat)),
        m.2 ∈ ([(3, { id := 3, bbox := (0, 0, 2, 2), cls := 0, score := 1 })] :
          List (Nat × Track)).map Prod.fst)) := by
  have hm : Matcher.match (1 / 2) false [(0, 0, 2, 2)]
      [(3, { id := 3, bbox := (0, 0, 2, 2), cls := 0, score := 1 })] =
      some [(0, 3)] := by
    norm_num [Matcher.match, greedyMatch, greedyRun, greedyStep,
      buildIouMatrix, getTrackBox, compute_iou, argmaxIdx, argmaxStep,
      List.range_succ]
  exact ⟨⟨by simp, c1_greedy_association.1 [(1 : ℚ), 1] (by simp)⟩,
    c1_greedy_association.2.2.2 (1 / 2) false [(0, 0, 2, 2)]
      [(3, { id := 3, bbox := (0, 0, 2, 2), cls := 0, score := 1 })]
      [(0, 3)] (by norm_num) hm⟩

/-! ### C4: track lifecycle invariants -/

/-- Tracker-state invariant: dictionary keys strictly increase in insertion
(creation) order, every key is below the id counter, and every live track
is within the lost-frame budget. -/
def TInv (maxLost : Nat) (s : TrackerState) : Prop :=
  List.Chain' (· < ·) (s.tracks.map Prod.fst) ∧
  (∀ p ∈ s.tracks, p.1 < s.next_id) ∧
  (∀ p ∈ s.tracks, p.2.lost_frames ≤ maxLost)

lemma update_track_lost (t : Track) (box : BBox) (cls : Int) (score : ℚ)
    (now : ℚ) : (update_track t box cls score now).lost_frames = 0 := rfl

lemma create_track_lost (next_id : Nat) (box : BBox) (cls : Int) (score : ℚ)
    (now : ℚ) : (create_track next_id box cls score now).lost_frames = 0 := rfl

/-- Updating matched tracks never changes the key sequence. -/
lemma update_matched_keys (now : ℚ) (mapping : List (Nat × Nat))
    (boxes : List BBox) (classes : List Int) (scores : List ℚ) :
    ∀ tracks : List (Nat × Track),
      (update_matched_tracks now mapping boxes classes scores tracks).map
        Prod.fst = tracks.map Prod.fst := by
  unfold update_matched_tracks
  induction mapping with
  | nil => intro tracks; rfl
  | cons m ms ih =>
    intro tracks
    rw [List.foldl_cons, ih]
    rw [List.map_map]
    apply List.map_congr_left
    intro p _
    simp only [Function.comp]
    split <;> rfl

/-- Every entry after the matched-track update is an original entry or has
`lost_frames = 0`. -/
lemma update_matched_entries (now : ℚ) (mapping : List (Nat × Nat))
    (boxes : List BBox) (classes : List Int) (scores : List ℚ) :
    ∀ (tracks : List (Nat × Track)) p,
      p ∈ update_matched_tracks now mapping boxes classes scores tracks →
      p ∈ tracks ∨ p.2.lost_frames = 0 := by
  unfold update_matched_tracks
  induction mapping with
  | nil => intro tracks p hp; exact Or.inl hp
  | cons m ms ih =>
    intro tracks p hp
    rw [List.foldl_cons] at hp
    rcases ih _ p hp with h | h
    · obtain ⟨q, hq, hqp⟩ := List.mem_map.mp h
      by_cases hk : q.1 = m.2
      · rw [if_pos hk] at hqp
        right
        rw [← hqp]
        exact update_track_lost _ _ _ _ _
      · rw [if_neg hk] at hqp
        left
        rw [← hqp]
        exact hq
    · exact Or.inr h

/-- Inserting a key absent from the association list appends it. -/
lemma dictInsert_fresh (l : List (Nat × Track)) (k : Nat) (v : Track)
    (h : ∀ q ∈ l, q.1 ≠ k) : dictInsert l k v = l ++ [(k, v)] := by
  unfold dictInsert
  rw [if_neg]
  simp only [List.any_eq_true, decide_eq_true_eq, not_exists, not_and]
  intro q hq
  exact h q hq

lemma mem_of_mem_getLast? (l : List α) (x : α) (h : x ∈ l.getLast?) :
    x ∈ l := by
  obtain ⟨hne, hx⟩ := List.mem_getLast?_eq_getLast h
  rw [hx]
  exact List.getLast_mem hne

/-- A strictly increasing key sequence stays strictly increasing when a
strictly larger key is appended. -/
lemma chain_append_big (l : List Nat) (a : Nat)
    (hc : List.Chain' (· < ·) l) (hbig : ∀ x ∈ l, x < a) :
    List.Chain' (· < ·) (l ++ [a]) := by
  rw [List.chain'_append]
  refine ⟨hc, List.chain'_singleton a, ?_⟩
  intro x hx y hy
  simp only [List.head?_cons, Option.mem_def, Option.some.injEq] at hy
  subst hy
  exact hbig x (mem_of_mem_getLast? l x hx)

/-- Creating tracks for unmatched detections preserves the key invariants,
never decreases the id counter, only mints keys at or above the old
counter, and adds only fresh (`lost_frames = 0`) entries. -/
lemma create_new_tracks_inv (now : ℚ) (mapping : List (Nat × Nat))
    (boxes : List BBox) (classes : List Int) (scores : List ℚ) :
    ∀ (is : List Nat) (st : TrackerState),
      List.Chain' (· < ·) (st.tracks.map Prod.fst) →
      (∀ p ∈ st.tracks, p.1 < st.next_id) →
      let st1 := is.foldl
        (fun st i =>
          if mapping.any (fun m => m.1 = i) then st
          else
            let tr := create_track st.next_id (boxes.getD i (0, 0, 0, 0))
              (classes.getD i 0) (scores.getD i 0) now
            ⟨dictInsert st.tracks tr.id tr, st.next_id + 1⟩)
        st
      List.Chain' (· < ·) (st1.tracks.map Prod.fst) ∧
      (∀ p ∈ st1.tracks, p.1 < st1.next_id) ∧
      st.next_id ≤ st1.next_id ∧
      (∀ p ∈ st1.tracks, p ∈ st.tracks ∨
        (st.next_id ≤ p.1 ∧ p.2.lost_frames = 0)) := by
  intro is
  induction is with
  | nil => intro st h1 h2; exact ⟨h1, h2, le_refl _, fun p hp => Or.inl hp⟩
  | cons i is ih =>
    intro st h1 h2
    rw [List.foldl_cons]
    by_cases hmap : mapping.any (fun m => m.1 = i)
    · rw [if_pos hmap]
      exact ih st h1 h2
    · rw [if_neg hmap]
      simp only []
      have hfresh : ∀ q ∈ st.tracks, q.1 ≠ st.next_id :=
        fun q hq => Nat.ne_of_lt (h2 q hq)
      have hins := dictInsert_fresh st.tracks st.next_id
        (create_track st.next_id (boxes.getD i (0, 0, 0, 0))
          (classes.getD i 0) (scores.getD i 0) now) hfresh
      set st' : TrackerState :=
        ⟨dictInsert st.tracks st.next_id
          (create_track st.next_id (boxes.getD i (0, 0, 0, 0))
            (classes.getD i 0) (scores.getD i 0) now), st.next_id + 1⟩
        with hst'
      have h1' : List.Chain' (· < ·) (st'.tracks.map Prod.fst) := by
        rw [hst']
        simp only [hins, List.map_append, List.map_cons, List.map_nil]
        exact chain_append_big _ _ h1 (by
          intro x hx
          obtain ⟨q, hq, hqx⟩ := List.mem_map.mp hx
          rw [← hqx]
          exact h2 q hq)
      have h2' : ∀ p ∈ st'.tracks, p.1 < st'.next_id := by
        rw [hst']
        simp only [hins]
        intro p hp
        rcases List.mem_append.mp hp with h | h
        · exact Nat.lt_succ_of_lt (h2 p h)
        · simp only [List.mem_singleton] at h
          subst h
          exact Nat.lt_succ_self _
      obtain ⟨k1, k2, k3, k4⟩ := ih st' h1' h2'
      refine ⟨k1, k2, le_trans (Nat.le_succ _) k3, ?_⟩
      intro p hp
      rcases k4 p hp with h | h
      · rw [hst'] at h
        simp only [hins] at h
        rcases List.mem_append.mp h with h | h
        · exact Or.inl h
        · simp only [List.mem_singleton] at h
          subst h
          exact Or.inr ⟨le_refl _, create_track_lost _ _ _ _ _⟩
      · exact Or.inr ⟨le_trans (Nat.le_succ _) h.1, h.2⟩

/-- The aged track list's key sequence is a sublist of the input keys. -/
lemma update_lost_keys_sublist (maxLost : Nat) (usePred : Bool)
    (updated : List Nat) :
    ∀ l : List (Nat × Track),
      List.Sublist ((update_lost_tracks maxLost usePred updated l).map
        Prod.fst) (l.map Prod.fst) := by
  unfold update_lost_tracks
  intro l
  induction l with
  | nil => simp
  | cons p l ih =>
    rw [List.filterMap_cons]
    by_cases hupd : p.1 ∈ updated
    · rw [if_pos hupd]
      simp only [List.map_cons]
      exact ih.cons₂ p.1
    · rw [if_neg hupd]
      simp only []
      by_cases hgt : (age_track maxLost usePred p.2).lost_frames > maxLost
      · rw [if_pos hgt]
        simp only [List.map_cons]
        exact ih.cons p.1
      · rw [if_neg hgt]
        simp only [List.map_cons]
        exact ih.cons₂ p.1

/-- After aging, every surviving entry is within the lost-frame budget,
provided every input entry was. -/
lemma update_lost_bound (maxLost : Nat) (usePred : Bool)
    (updated : List Nat) (l : List (Nat × Track))
    (hl : ∀ p ∈ l, p.2.lost_frames ≤ maxLost) :
    ∀ p ∈ update_lost_tracks maxLost usePred updated l,
      p.2.lost_frames ≤ maxLost := by
  unfold update_lost_tracks
  intro p hp
  obtain ⟨q, hq, hqp⟩ := List.mem_filterMap.mp hp
  simp only [] at hqp
  by_cases hupd : q.1 ∈ updated
  · rw [if_pos hupd] at hqp
    injection hqp with h
    rw [← h]
    exact hl q hq
  · rw [if_neg hupd] at hqp
    by_cases hgt : (age_track maxLost usePred q.2).lost_frames > maxLost
    · rw [if_pos hgt] at hqp
      cases hqp
    · rw [if_neg hgt] at hqp
      injection hqp with h
      rw [← h]
      exact Nat.le_of_not_lt hgt

/-- `create_new_tracks` preserves the key invariants, never decreases the
id counter, and mints only fresh keys. -/
lemma create_new_tracks_spec (now : ℚ) (mapping : List (Nat × Nat))
    (boxes : List BBox) (classes : List Int) (scores : List ℚ)
    (st : TrackerState)
    (h1 : List.Chain' (· < ·) (st.tracks.map Prod.fst))
    (h2 : ∀ p ∈ st.tracks, p.1 < st.next_id) :
    List.Chain' (· < ·)
      ((create_new_tracks now mapping boxes classes scores st).tracks.map
        Prod.fst) ∧
    (∀ p ∈ (create_new_tracks now mapping boxes classes scores st).tracks,
      p.1 < (create_new_tracks now mapping boxes classes scores st).next_id) ∧
    st.next_id ≤ (create_new_tracks now mapping boxes classes scores
      st).next_id ∧
    (∀ p ∈ (create_new_tracks now mapping boxes classes scores st).tracks,
      p ∈ st.tracks ∨ (st.next_id ≤ p.1 ∧ p.2.lost_frames = 0)) :=
  create_new_tracks_inv now mapping boxes classes scores
    (List.range boxes.length) st h1 h2

/-- One `Tracker.update` preserves the tracker invariant, never decreases
the id counter, and every resulting key is either an existing key or a
freshly minted id at or above the old counter. -/
lemma tracker_update_inv (thr : ℚ) (maxLost : Nat) (usePred : Bool)
    (now : ℚ) (detections : List Detection) (s s1 : TrackerState)
    (hinv : TInv maxLost s)
    (hup : Tracker.update thr maxLost usePred now s detections = some s1) :
    TInv maxLost s1 ∧ s.next_id ≤ s1.next_id ∧
    (∀ p ∈ s1.tracks, p.1 ∈ s.tracks.map Prod.fst ∨ s.next_id ≤ p.1) := by
  obtain ⟨hchain, hbound, hlost⟩ := hinv
  unfold Tracker.update at hup
  simp only [] at hup
  cases hm : Matcher.match thr usePred
      (detections.map (fun d => (d.1, d.2.1, d.2.2.1, d.2.2.2.1)))
      s.tracks with
  | none => rw [hm] at hup; cases hup
  | some mapping =>
    rw [hm] at hup
    injection hup with hs1
    subst hs1
    set boxes := detections.map (fun d => (d.1, d.2.1, d.2.2.1, d.2.2.2.1))
      with hboxes
    set classes := detections.map (fun d => d.2.2.2.2.1) with hclasses
    set scores := detections.map (fun d => d.2.2.2.2.2) with hscores
    set tracks1 := update_matched_tracks now mapping boxes classes scores
      s.tracks with htracks1
    have hkeys1 : tracks1.map Prod.fst = s.tracks.map Prod.fst :=
      update_matched_keys now mapping boxes classes scores s.tracks
    have hchain1 : List.Chain' (· < ·)
        ((⟨tracks1, s.next_id⟩ : TrackerState).tracks.map Prod.fst) := by
      simp only []
      rw [hkeys1]
      exact hchain
    have hbound1 : ∀ p ∈ (⟨tracks1, s.next_id⟩ : TrackerState).tracks,
        p.1 < s.next_id := by
      intro p hp
      have hk : p.1 ∈ tracks1.map Prod.fst := List.mem_map_of_mem _ hp
      rw [hkeys1] at hk
      obtain ⟨q, hq, hqk⟩ := List.mem_map.mp hk
      rw [← hqk]
      exact hbound q hq
    have hlost1 : ∀ p ∈ tracks1, p.2.lost_frames ≤ maxLost := by
      intro p hp
      rcases update_matched_entries now mapping boxes classes scores
          s.tracks p hp with h | h
      · exact hlost p h
      · omega
    obtain ⟨k1, k2, k3, k4⟩ := create_new_tracks_spec now mapping boxes
      classes scores ⟨tracks1, s.next_id⟩ hchain1 hbound1
    set st2 := create_new_tracks now mapping boxes classes scores
      ⟨tracks1, s.next_id⟩ with hst2
    have hlost2 : ∀ p ∈ st2.tracks, p.2.lost_frames ≤ maxLost := by
      intro p hp
      rcases k4 p hp with h | h
      · exact hlost1 p h
      · omega
    have hsub := update_lost_keys_sublist maxLost usePred
      (mapping.map Prod.snd) st2.tracks
    refine ⟨⟨k1.sublist hsub, ?_, ?_⟩, k3, ?_⟩
    · intro p hp
      have hk : p.1 ∈ (update_lost_tracks maxLost usePred
          (mapping.map Prod.snd) st2.tracks).map Prod.fst :=
        List.mem_map_of_mem _ hp
      have hk2 : p.1 ∈ st2.tracks.map Prod.fst := hsub.subset hk
      obtain ⟨q, hq, hqk⟩ := List.mem_map.mp hk2
      rw [← hqk]
      exact k2 q hq
    · exact update_lost_bound maxLost usePred (mapping.map Prod.snd)
        st2.tracks hlost2
    · intro p hp
      have hk : p.1 ∈ (update_lost_tracks maxLost usePred
          (mapping.map Prod.snd) st2.tracks).map Prod.fst :=
        List.mem_map_of_mem _ hp
      have hk2 : p.1 ∈ st2.tracks.map Prod.fst := hsub.subset hk
      obtain ⟨q, hq, hqk⟩ := List.mem_map.mp hk2
      rcases k4 q hq with h | h
      · left
        rw [← hqk, ← hkeys1]
        exact List.mem_map_of_mem _ h
      · right
        rw [← hqk]
        exact h.1

/-- The tracker invariant holds along every run. -/
lemma tracker_updates_inv (thr : ℚ) (maxLost : Nat) (usePred : Bool) :
    ∀ (frames : List (ℚ × List Detection)) (s0 s : TrackerState),
      TInv maxLost s0 →
      Tracker.updates thr maxLost usePred s0 frames = some s →
      TInv maxLost s := by
  intro frames
  induction frames with
  | nil =>
    intro s0 s hinv hrun
    unfold Tracker.updates at hrun
    injection hrun with h
    subst h
    exact hinv
  | cons f fs ih =>
    intro s0 s hinv hrun
    unfold Tracker.updates at hrun
    cases hstep : Tracker.update thr maxLost usePred f.1 s0 f.2 with
    | none => rw [hstep] at hrun; cases hrun
    | some s1 =>
      rw [hstep] at hrun
      exact ih s1 s
        (tracker_update_inv thr maxLost usePred f.1 f.2 s0 s1 hinv hstep).1
        hrun

/-- The initial tracker state satisfies the invariant. -/
lemma tinv_init (maxLost : Nat) : TInv maxLost initialTracker := by
  refine ⟨?_, ?_, ?_⟩ <;> simp [initialTracker, TInv]

/-- C4: in every tracker state reachable by a run of `Tracker.update`
calls from the initial state, every live track satisfies
`lost_frames ≤ max_lost` (a track exceeding the budget is removed inside
the same update), the dictionary keys are strictly increasing in creation
order and all lie below the id counter; moreover one update step never
decreases the counter and every key after a step is either a pre-existing
key or a fresh id at or above the old counter — so ids are never reused,
even after deletion. -/
theorem c4_track_id_invariants (thr : ℚ) (maxLost : Nat) (usePred : Bool)
    (frames : List (ℚ × List Detection)) (s : TrackerState)
    (hrun : Tracker.updates thr maxLost usePred initialTracker frames =
      some s) :
    (∀ p ∈ s.tracks, p.2.lost_frames ≤ maxLost) ∧
    List.Chain' (· < ·) (s.tracks.map Prod.fst) ∧
    (∀ p ∈ s.tracks, p.1 < s.next_id) ∧
    (∀ (s0 s1 : TrackerState) (now : ℚ) (dets : List Detection),
      TInv maxLost s0 →
      Tracker.update thr maxLost usePred now s0 dets = some s1 →
      s0.next_id ≤ s1.next_id ∧
      ∀ p ∈ s1.tracks, p.1 ∈ s0.tracks.map Prod.fst ∨ s0.next_id ≤ p.1) := by
  obtain ⟨hc, hb, hl⟩ := tracker_updates_inv thr maxLost usePred frames
    initialTracker s (tinv_init maxLost) hrun
  exact ⟨hl, hc, hb, fun s0 s1 now dets hinv hup =>
    ⟨(tracker_update_inv thr maxLost usePred now dets s0 s1 hinv hup).2.1,
     (tracker_update_inv thr maxLost usePred now dets s0 s1 hinv hup).2.2⟩⟩

/-- C4 witness: the theorem applied to a concrete one-frame run. -/
theorem c4_track_id_invariants_witness :
    (∀ p ∈ initialTracker.tracks, p.2.lost_frames ≤ 45) ∧
    List.Chain' (· < ·) (initialTracker.tracks.map Prod.fst) ∧
    (∀ p ∈ initialTracker.tracks, p.1 < initialTracker.next_id) ∧
    (∀ (s0 s1 : TrackerState) (now : ℚ) (dets : List Detection),
      TInv 45 s0 →
      Tracker.update (1 / 5) 45 true now s0 dets = some s1 →
      s0.next_id ≤ s1.next_id ∧
      ∀ p ∈ s1.tracks, p.1 ∈ s0.tracks.map Prod.fst ∨ s0.next_id ≤ p.1) :=
  c4_track_id_invariants (1 / 5) 45 true [(0, [])] initialTracker rfl

/-- C7 witness: the theorem applied to a concrete person track with a
degenerate box (`x2 = x1`), which the detector labels `unknown`. -/
theorem c7_clothing_label_witness :
    (detect_clothing_track (fun c : Nat × Nat × Nat => c) 5 35 100 100
      (3 / 100) [[(20, 200, 200), (20, 200, 200)]]
      { id := 1, bbox := (0, 0, 0, 4), cls := 0, score := 1,
        cls_name := some "person" }).clothing = some "unknown" :=
  (c7_clothing_label (Nat × Nat × Nat) (fun c => c) 5 35 100 100
    [[(20, 200, 200), (20, 200, 200)]]
    { id := 1, bbox := (0, 0, 0, 4), cls := 0, score := 1,
      cls_name := some "person" } rfl).1 (Or.inl (le_refl _))

end LocalPulse
